import Mathlib

/-!
Verification of the price-acquisition and reconciliation pipeline of the
`clayps` PlayStation price-comparison app.

The development shallowly embeds the pipeline's core functions:

* `convertPrice`, `FALLBACK_RATES`, `fetchExchangeRates` from the currency
  service (`src/unnamed/part_000`, i.e. `services/currency.ts`);
* `fetchGeminiPrices` (retry loop), `fetchRawgMetadata`, and
  `searchGamePrices` (merge + clean) from `src/services/gemini.ts`;
* `savePriceHistory` / `getPriceHistory` from `src/services/history.ts`.

JavaScript numbers are modelled as `ℚ`; JS objects coming from untrusted
JSON are modelled by the inductive `JsonValue`, with property access
returning `Option` (a missing key is `undefined`, modelled by `none`).
Network effects are modelled by passing the outcome of each request as an
explicit parameter.
-/

/-! ## Currency converter (`services/currency.ts`) -/

/-- An exchange-rate table: a JS object mapping currency codes to numbers,
modelled as an association list. -/
abbrev ExchangeRates := List (String × ℚ)

/-- The static fallback table `FALLBACK_RATES` from `services/currency.ts`. -/
def FALLBACK_RATES : ExchangeRates :=
  [("USD", 1), ("SGD", 1.34), ("TRY", 32.5), ("IDR", 15600), ("EUR", 0.92),
   ("GBP", 0.79), ("MYR", 4.75), ("JPY", 150.0), ("PHP", 56.0)]

/-- `rates[c] || 1`: the rate used for currency `c`, where a missing entry or
a falsy (zero) rate is replaced by `1`. -/
def rateOr1 (rates : ExchangeRates) (c : String) : ℚ :=
  match List.lookup c rates with
  | some r => if r = 0 then 1 else r
  | none => 1

/-- `convertPrice` from `services/currency.ts`:
`const fromRate = rates[fromCurrency] || 1; const toRate = rates[toCurrency] || 1;
return amount / fromRate * toRate`. -/
def convertPrice (amount : ℚ) (fromCurrency toCurrency : String)
    (rates : ExchangeRates) : ℚ :=
  amount / rateOr1 rates fromCurrency * rateOr1 rates toCurrency

/-! ## JSON values and the exchange-rate fetch -/

/-- An untrusted JSON value, as produced by `response.json()` or
`JSON.parse`. -/
inductive JsonValue where
  | jnull
  | jbool (b : Bool)
  | jnum (q : ℚ)
  | jstr (s : String)
  | jarr (items : List JsonValue)
  | jobj (fields : List (String × JsonValue))

/-- The outcome of the single GET performed by `fetchExchangeRates`:
the request may fail in transport, return a non-ok status, have a body that
is not parseable JSON, or deliver a parsed JSON payload. -/
inductive FetchOutcome where
  | transportError
  | httpError
  | parseError
  | payload (v : JsonValue)

/-- JS property access `v.name` on a parsed JSON value: throws a `TypeError`
on `null`, yields the field on an object (or `undefined` when the key is
absent), and yields `undefined` on every other JSON value. -/
def getField (v : JsonValue) (name : String) : Except Unit (Option JsonValue) :=
  match v with
  | .jnull => .error ()
  | .jobj fields => .ok (List.lookup name fields)
  | _ => .ok none

/-- Re-encode a typed rate table as the JSON object the endpoint would have
served. -/
def jsonOfRates (r : ExchangeRates) : JsonValue :=
  .jobj (r.map fun e => (e.1, .jnum e.2))

/-- `fetchExchangeRates` from `services/currency.ts`, as a function of the
request's outcome.  The `try` block covers the fetch, the `response.ok`
check, `response.json()`, and the access `data.rates`; any throw falls back
to `FALLBACK_RATES`.  A successful access returns `data.rates` as-is
(`none` models the JS value `undefined`). -/
def fetchExchangeRates (o : FetchOutcome) : Option JsonValue :=
  match o with
  | .transportError => some (jsonOfRates FALLBACK_RATES)
  | .httpError => some (jsonOfRates FALLBACK_RATES)
  | .parseError => some (jsonOfRates FALLBACK_RATES)
  | .payload v =>
    match getField v "rates" with
    | .error _ => some (jsonOfRates FALLBACK_RATES)
    | .ok r => r

/-! ## The response schema declared in `fetchGeminiPrices`' request

The `responseSchema` sent to the provider requires an object with `title`,
`description` and `prices`, each price requiring `region`,
`regionCode ∈ {US, SG, TR, ID}`, `currency` and `amount`, with
`originalAmount` optional.  `conformsToSchema` decides whether a parsed
JSON body satisfies it. -/

/-- Whether a JSON value is a string. -/
def isStr : JsonValue → Bool
  | .jstr _ => true
  | _ => false

/-- Whether a JSON value is a number. -/
def isNum : JsonValue → Bool
  | .jnum _ => true
  | _ => false

/-- Whether one element of the `prices` array conforms to the item schema. -/
def priceConforms (v : JsonValue) : Bool :=
  match v with
  | .jobj fs =>
    (match List.lookup "region" fs with | some x => isStr x | none => false) &&
    (match List.lookup "regionCode" fs with
     | some (.jstr c) => c == "US" || c == "SG" || c == "TR" || c == "ID"
     | _ => false) &&
    (match List.lookup "currency" fs with | some x => isStr x | none => false) &&
    (match List.lookup "amount" fs with | some x => isNum x | none => false) &&
    (match List.lookup "originalAmount" fs with | some x => isNum x | none => true)
  | _ => false

/-- Whether a parsed response body conforms to the declared response schema. -/
def conformsToSchema (v : JsonValue) : Bool :=
  match v with
  | .jobj fs =>
    (match List.lookup "title" fs with | some x => isStr x | none => false) &&
    (match List.lookup "description" fs with | some x => isStr x | none => false) &&
    (match List.lookup "prices" fs with
     | some (.jarr items) => items.all priceConforms
     | _ => false)
  | _ => false

/-! ## The retry loop of `fetchGeminiPrices` (`services/gemini.ts`) -/

/-- A JS error value, with the fields the retry loop inspects. -/
structure JsError where
  message : String
  status : Option Int
deriving DecidableEq

/-- `e.toString()` for an `Error` object. -/
def errToString (e : JsError) : String := "Error: " ++ e.message

/-- `s.includes(pat)`. -/
def strContains (s pat : String) : Bool := decide (pat.toList <:+: s.toList)

/-- The loop's 429 classifier:
`e.message?.includes('429') || e.status === 429 || e.toString().includes('429')`. -/
def isRateLimit (e : JsError) : Bool :=
  strContains e.message "429" || e.status == some 429 ||
    strContains (errToString e) "429"

/-- The loop's 503 classifier: `e.message?.includes('503') || e.status === 503`. -/
def isServerBusy (e : JsError) : Bool :=
  strContains e.message "503" || e.status == some 503

/-- An error is retried exactly when `isRateLimit || isServerBusy`. -/
def retryable (e : JsError) : Bool := isRateLimit e || isServerBusy e

/-- `const maxRetries = 3`. -/
def maxRetries : Nat := 3

/-- The outcome of one attempt of the `try` block: either the parsed value
is returned, or some error is thrown. -/
inductive AttemptOutcome (α : Type) where
  | success (value : α)
  | failure (e : JsError)

/-- The observable behaviour of a run of the retry loop: the terminal
result, how many attempts were executed, and the backoff delays (in ms)
awaited between attempts, in order. -/
structure FetchTrace (α : Type) where
  result : Except JsError α
  attemptsMade : Nat
  delays : List Nat

/-- The retry loop body, starting at index `i` with `rem` loop iterations
left (`i + rem = maxRetries`).  On failure the loop retries only when the
error is `retryable` and `i < maxRetries - 1`, after a delay of
`2000 * 2 ^ i` ms; otherwise it breaks and the last error is thrown. -/
def fetchAux {α : Type} (attempts : Nat → AttemptOutcome α) :
    Nat → Nat → FetchTrace α
  | _, 0 => ⟨.error ⟨"", none⟩, 0, []⟩
  | i, rem + 1 =>
    match attempts i with
    | .success v => ⟨.ok v, 1, []⟩
    | .failure e =>
      if retryable e ∧ i < maxRetries - 1 then
        let t := fetchAux attempts (i + 1) rem
        ⟨t.result, t.attemptsMade + 1, 2000 * 2 ^ i :: t.delays⟩
      else ⟨.error e, 1, []⟩

/-- `fetchGeminiPrices` from `services/gemini.ts`, abstracted over what each
attempt of the provider call does. -/
def fetchGeminiPrices {α : Type} (attempts : Nat → AttemptOutcome α) :
    FetchTrace α :=
  fetchAux attempts 0 maxRetries

/-- What one attempt observes from the provider: no/empty `response.text`,
a text that fails `JSON.parse`, or a text parsing to a JSON value. -/
inductive ProviderResponse where
  | noText
  | badJson
  | parsed (v : JsonValue)

/-- The body of one attempt, from `services/gemini.ts` lines 118-121:
`if (!text) throw new Error("No response from AI"); return JSON.parse(text)
as GameData` — the parsed value is returned without any client-side schema
validation. -/
def runAttempt : ProviderResponse → AttemptOutcome JsonValue
  | .noText => .failure ⟨"No response from AI", none⟩
  | .badJson => .failure ⟨"Unexpected token in JSON", none⟩
  | .parsed v => .success v

/-! ## Typed game data, merge and cleaning (`services/gemini.ts`) -/

/-- `PriceInfo` from `types.ts`. -/
structure PriceInfo where
  region : String
  regionCode : String
  currency : String
  amount : ℚ
  originalAmount : Option ℚ
deriving DecidableEq

/-- `GameData` from `types.ts`. -/
structure GameData where
  title : String
  description : String
  coverImageUrl : Option String
  prices : List PriceInfo
deriving DecidableEq

/-- The value returned by `fetchRawgMetadata`: either the empty object `{}`,
or `{ title: game.name, coverImageUrl: game.background_image }` — note that
a found result always carries *both* keys, `coverImageUrl` possibly with
the value `undefined` (modelled `none`). -/
inductive RawgMeta where
  | empty
  | found (title : String) (coverImageUrl : Option String)
deriving DecidableEq

/-- The outcome of the RAWG request inside `fetchRawgMetadata`. -/
inductive RawgOutcome where
  | noKey
  | httpError
  | fetchError
  | noResults
  | result (name : String) (background_image : Option String)

/-- `fetchRawgMetadata` from `services/gemini.ts`: every failure path
collapses to the empty object; a first result maps its `name` and
`background_image` into the partial result. -/
def fetchRawgMetadata : RawgOutcome → RawgMeta
  | .noKey => .empty
  | .httpError => .empty
  | .fetchError => .empty
  | .noResults => .empty
  | .result n img => .found n img

/-- The merge `{...geminiData, ...rawgData, description: geminiData.description}`:
spreading `rawgData` copies its own keys (title and coverImageUrl, when the
object is non-empty, even if `coverImageUrl` holds `undefined`), and the
description is always taken from the Gemini result. -/
def mergeData (gemini : GameData) (meta : RawgMeta) : GameData :=
  match meta with
  | .empty => gemini
  | .found t c => { gemini with title := t, coverImageUrl := c }

/-- The `forEach` normalisation:
`if (!p.originalAmount || p.originalAmount < p.amount) p.originalAmount = p.amount`
(`!p.originalAmount` is the JS falsy test: absent or zero). -/
def normalizeOriginal (p : PriceInfo) : PriceInfo :=
  match p.originalAmount with
  | none => { p with originalAmount := some p.amount }
  | some o =>
    if o = 0 ∨ o < p.amount then { p with originalAmount := some p.amount }
    else p

/-- The price cleaning of `searchGamePrices`:
`prices.filter(p => p.amount > 0)` followed by the `originalAmount`
normalisation. -/
def cleanPricesList (ps : List PriceInfo) : List PriceInfo :=
  (ps.filter fun p => decide (0 < p.amount)).map normalizeOriginal

/-- `searchGamePrices` from `services/gemini.ts`, as a function of the RAWG
outcome and of the (fixed) payload the price fetcher resolves with:
validates the region selection, merges, and cleans the prices. -/
def searchGamePrices (rawg : RawgOutcome) (gemini : GameData)
    (selectedRegionCodes : List String) : Except String GameData :=
  if selectedRegionCodes.isEmpty then
    .error "Please select at least one region."
  else
    let finalData := mergeData gemini (fetchRawgMetadata rawg)
    .ok { finalData with prices := cleanPricesList finalData.prices }

/-- The claim-side region property of C1: every price entry's region code
belongs to the requested set. -/
def pricesWithinRegions (d : GameData) (codes : List String) : Bool :=
  d.prices.all fun p => codes.contains p.regionCode

/-! ## Price history store (`services/history.ts`) -/

/-- `HistoryPoint` from `services/history.ts`. -/
structure HistoryPoint where
  date : String
  amount : ℚ
deriving DecidableEq

/-- The per-region series of a game: `db[key][regionCode]`. -/
abbrev RegionSeries := List HistoryPoint

/-- The per-game map from region code to series: `db[key]`. -/
abbrev GameHistory := List (String × RegionSeries)

/-- The whole persisted document: normalized game key to game history. -/
abbrev HistoryDb := List (String × GameHistory)

/-- Title normalisation: `gameTitle.toLowerCase().trim()`. -/
def normalizeKey (t : String) : String := t.toLower.trim

/-- JS object assignment `m[k] = v` on an association list: updates the
binding in place when the key exists, otherwise appends it. -/
def setEntry {β : Type} : List (String × β) → String → β → List (String × β)
  | [], k, v => [(k, v)]
  | (k', v') :: rest, k, v =>
    if k' = k then (k', v) :: rest else (k', v') :: setEntry rest k v

/-- The per-price update of `savePriceHistory`: look at the series' last
entry; if it is dated `today`, overwrite its amount (latest price wins),
otherwise push a new point. -/
def updateSeries (s : RegionSeries) (today : String) (amount : ℚ) :
    RegionSeries :=
  match s.getLast? with
  | some lastEntry =>
    if lastEntry.date = today then s.dropLast ++ [⟨lastEntry.date, amount⟩]
    else s ++ [⟨today, amount⟩]
  | none => [⟨today, amount⟩]

/-- One iteration of the `prices.forEach` loop of `savePriceHistory`:
create the region series if absent, then apply `updateSeries` to it. -/
def recordOne (today : String) (gh : GameHistory) (p : PriceInfo) :
    GameHistory :=
  let history := (List.lookup p.regionCode gh).getD []
  setEntry gh p.regionCode (updateSeries history today p.amount)

/-- `savePriceHistory` from `services/history.ts`, with the persisted
document and the current calendar day `today` passed explicitly. -/
def savePriceHistory (db : HistoryDb) (gameTitle : String)
    (prices : List PriceInfo) (today : String) : HistoryDb :=
  let key := normalizeKey gameTitle
  let gh := (List.lookup key db).getD []
  setEntry db key (prices.foldl (recordOne today) gh)

/-- The raw-key series lookup `db[key]?.[regionCode] || []`. -/
def lookupSeries (db : HistoryDb) (k rc : String) : RegionSeries :=
  (List.lookup rc ((List.lookup k db).getD [])).getD []

/-- `getPriceHistory` from `services/history.ts`. -/
def getPriceHistory (db : HistoryDb) (gameTitle regionCode : String) :
    RegionSeries :=
  lookupSeries db (normalizeKey gameTitle) regionCode

/-- The well-formedness of one series at clock value `bound`: dates are
strictly increasing and none exceeds `bound`. -/
def seriesOk (bound : String) (s : RegionSeries) : Prop :=
  List.Pairwise (fun x y => x.date < y.date) s ∧ ∀ p ∈ s, p.date ≤ bound

/-- Every series reachable in a game history is well formed. -/
def gameOk (bound : String) (gh : GameHistory) : Prop :=
  ∀ rc, seriesOk bound ((List.lookup rc gh).getD [])

/-- Every series reachable in the store is well formed: the state invariant
of the history store under a monotone clock. -/
def dbOk (bound : String) (db : HistoryDb) : Prop :=
  ∀ k, gameOk bound ((List.lookup k db).getD [])

/-! ## Helper lemmas -/

theorem rateOr1_ne_zero (rates : ExchangeRates) (c : String) :
    rateOr1 rates c ≠ 0 := by
  rcases h : List.lookup c rates with _ | r
  · simp [rateOr1, h]
  · by_cases hr : r = 0 <;> simp [rateOr1, h, hr]

theorem rateOr1_of_lookup (rates : ExchangeRates) (c : String) (r : ℚ)
    (h : List.lookup c rates = some r) (hr : r ≠ 0) : rateOr1 rates c = r := by
  simp [rateOr1, h, hr]

theorem mergeData_prices (g : GameData) (m : RawgMeta) :
    (mergeData g m).prices = g.prices := by
  cases m <;> rfl

theorem normalizeOriginal_regionCode (p : PriceInfo) :
    (normalizeOriginal p).regionCode = p.regionCode := by
  rcases h : p.originalAmount with _ | o
  · simp [normalizeOriginal, h]
  · by_cases hc : o = 0 ∨ o < p.amount <;> simp [normalizeOriginal, h, hc]

theorem normalizeOriginal_amount (p : PriceInfo) :
    (normalizeOriginal p).amount = p.amount := by
  rcases h : p.originalAmount with _ | o
  · simp [normalizeOriginal, h]
  · by_cases hc : o = 0 ∨ o < p.amount <;> simp [normalizeOriginal, h, hc]

theorem normalizeOriginal_originalAmount (p : PriceInfo) :
    ∃ o, (normalizeOriginal p).originalAmount = some o ∧ p.amount ≤ o := by
  rcases h : p.originalAmount with _ | o
  · exact ⟨p.amount, by simp [normalizeOriginal, h], le_refl _⟩
  · by_cases hc : o = 0 ∨ o < p.amount
    · exact ⟨p.amount, by simp [normalizeOriginal, h, hc], le_refl _⟩
    · refine ⟨o, by simp [normalizeOriginal, h, hc], ?_⟩
      push_neg at hc
      exact hc.2

theorem normalizeOriginal_id_of (p : PriceInfo) (h0 : 0 < p.amount) (o : ℚ)
    (ho : p.originalAmount = some o) (hle : p.amount ≤ o) :
    normalizeOriginal p = p := by
  have h1 : ¬(o = 0 ∨ o < p.amount) := by
    push_neg
    exact ⟨ne_of_gt (lt_of_lt_of_le h0 hle), hle⟩
  simp [normalizeOriginal, ho, h1]

theorem mem_cleanPricesList (ps : List PriceInfo) (p : PriceInfo) :
    p ∈ cleanPricesList ps ↔
      ∃ q, (q ∈ ps ∧ 0 < q.amount) ∧ normalizeOriginal q = p := by
  simp [cleanPricesList, List.mem_map, List.mem_filter]

theorem map_id_of_mem {α : Type} (l : List α) (f : α → α)
    (h : ∀ a ∈ l, f a = a) : l.map f = l := by
  induction l with
  | nil => rfl
  | cons a t ih =>
    simp only [List.map_cons, h a (List.mem_cons_self a t)]
    rw [ih fun b hb => h b (List.mem_cons_of_mem a hb)]

theorem normalizeOriginal_idem (p : PriceInfo) (h : 0 < p.amount) :
    normalizeOriginal (normalizeOriginal p) = normalizeOriginal p := by
  obtain ⟨o, ho, hle⟩ := normalizeOriginal_originalAmount p
  refine normalizeOriginal_id_of _ ?_ o ho ?_
  · rw [normalizeOriginal_amount]; exact h
  · rw [normalizeOriginal_amount]; exact hle

theorem cleanPricesList_idem (ps : List PriceInfo) :
    cleanPricesList (cleanPricesList ps) = cleanPricesList ps := by
  have hpos : ∀ p ∈ cleanPricesList ps, 0 < p.amount := by
    intro p hp
    obtain ⟨q, ⟨_, hq⟩, hn⟩ := (mem_cleanPricesList ps p).mp hp
    rw [← hn, normalizeOriginal_amount]
    exact hq
  show ((cleanPricesList ps).filter fun p => decide (0 < p.amount)).map
      normalizeOriginal = cleanPricesList ps
  rw [List.filter_eq_self.mpr fun p hp => decide_eq_true (hpos p hp)]
  refine map_id_of_mem _ _ fun p hp => ?_
  obtain ⟨q, ⟨_, hq⟩, hn⟩ := (mem_cleanPricesList ps p).mp hp
  rw [← hn]
  exact normalizeOriginal_idem q hq

theorem searchGamePrices_ok_prices (rawg : RawgOutcome) (g : GameData)
    (codes : List String) (d : GameData)
    (hok : searchGamePrices rawg g codes = Except.ok d) :
    d.prices = cleanPricesList g.prices := by
  by_cases hc : codes.isEmpty
  · simp [searchGamePrices, hc] at hok
  · simp only [searchGamePrices, hc, Bool.false_eq_true, if_false,
      Except.ok.injEq] at hok
    rw [← hok, mergeData_prices]

/-! ## Claim C10: convertPrice is total and never divides by zero -/

/-- C10: `convertPrice` is total for every amount, currency pair and rate
table — including tables with a zero or absent rate — because the divisor
`rates[c] || 1` is never zero: a falsy rate (missing or `0`) is replaced by
`1`, and the result is always `amount / rateOr1 from * rateOr1 to`. -/
theorem convertPrice_total_no_div_zero (amount : ℚ) (c1 c2 : String)
    (rates : ExchangeRates) :
    rateOr1 rates c1 ≠ 0 ∧ rateOr1 rates c2 ≠ 0 ∧
      convertPrice amount c1 c2 rates =
        amount / rateOr1 rates c1 * rateOr1 rates c2 :=
  ⟨rateOr1_ne_zero rates c1, rateOr1_ne_zero rates c2, rfl⟩

/-! ## Claim C8: conversion formula and round trip -/

/-- C8: for currencies listed in the table with nonzero rates,
`convertPrice amount a b rates` equals `amount / rate(a) * rate(b)` (with a
missing code given rate 1), and consequently the conversion round trip
`convertPrice (convertPrice x a b) b a` returns `x` exactly, in exact
arithmetic. -/
theorem convertPrice_roundtrip (rates : ExchangeRates) (x : ℚ) (a b : String)
    (ra rb : ℚ) (ha : List.lookup a rates = some ra) (ha0 : ra ≠ 0)
    (hb : List.lookup b rates = some rb) (hb0 : rb ≠ 0) :
    (∀ amt : ℚ, convertPrice amt a b rates = amt / ra * rb) ∧
      convertPrice (convertPrice x a b rates) b a rates = x := by
  have hra := rateOr1_of_lookup rates a ra ha ha0
  have hrb := rateOr1_of_lookup rates b rb hb hb0
  constructor
  · intro amt
    rw [convertPrice, hra, hrb]
  · rw [convertPrice, convertPrice, hra, hrb]
    field_simp
    ring

/-- Witness for C8 at a concrete table and amount. -/
theorem convertPrice_roundtrip_witness :
    convertPrice (convertPrice 100 "USD" "SGD" [("USD", 1), ("SGD", 2)])
      "SGD" "USD" [("USD", 1), ("SGD", 2)] = 100 :=
  (convertPrice_roundtrip [("USD", 1), ("SGD", 2)] 100 "USD" "SGD" 1 2
    (by decide) (by norm_num) (by decide) (by norm_num)).2

/-! ## Claim C6: fetchExchangeRates never fails outward -/

/-- C6 counterexample: a successful request whose body parses to a JSON
object *without* a `rates` field is a malformed payload, yet
`fetchExchangeRates` does not return the fallback table: it returns the
undefined `data.rates` (modelled `none`).  The claim "any malformed payload
yields the static fallback table" is therefore false of the code. -/
theorem fetchExchangeRates_malformed_cex :
    fetchExchangeRates (FetchOutcome.payload (JsonValue.jobj [])) = none ∧
      (none : Option JsonValue) ≠ some (jsonOfRates FALLBACK_RATES) :=
  ⟨rfl, by simp⟩

/-- C6 amended: `fetchExchangeRates` returns the fallback table on
transport failure, non-success HTTP status, a body that is not parseable
JSON, or a parsed `null` body (whose `.rates` access throws); on any other
parsed body it returns the body's `rates` field as-is, without validation —
in particular a JSON object lacking `rates` yields `undefined`, not the
fallback. -/
theorem fetchExchangeRates_fallback_spec :
    fetchExchangeRates FetchOutcome.transportError =
        some (jsonOfRates FALLBACK_RATES) ∧
    fetchExchangeRates FetchOutcome.httpError =
        some (jsonOfRates FALLBACK_RATES) ∧
    fetchExchangeRates FetchOutcome.parseError =
        some (jsonOfRates FALLBACK_RATES) ∧
    fetchExchangeRates (FetchOutcome.payload JsonValue.jnull) =
        some (jsonOfRates FALLBACK_RATES) ∧
    ∀ fields, fetchExchangeRates (FetchOutcome.payload (JsonValue.jobj fields)) =
        List.lookup "rates" fields :=
  ⟨rfl, rfl, rfl, rfl, fun _ => rfl⟩

/-! ## Claim C7: merge precedence -/

/-- C7 counterexample: the claim's scenario "AI result with cover `C1`,
metadata result with only a title and no image" is realised by a RAWG hit
whose `background_image` is undefined; the spread then *overwrites* the AI
cover with `undefined` instead of keeping `C1`, because a found metadata
result always carries the `coverImageUrl` key. -/
theorem mergeData_cover_clobber_cex :
    (mergeData ⟨"T1", "D", some "C1", []⟩
        (fetchRawgMetadata (RawgOutcome.result "T2" none))).title = "T2" ∧
    (mergeData ⟨"T1", "D", some "C1", []⟩
        (fetchRawgMetadata (RawgOutcome.result "T2" none))).coverImageUrl
      = none ∧
    (mergeData ⟨"T1", "D", some "C1", []⟩
        (fetchRawgMetadata (RawgOutcome.result "T2" none))).coverImageUrl
      ≠ some "C1" :=
  ⟨rfl, rfl, by simp [mergeData, fetchRawgMetadata]⟩

/-- C7 amended: the merge takes the AI result as base and keeps the AI
description and prices unconditionally; when metadata found nothing, all AI
fields are retained; when metadata found a game it supplies *both* `title`
and `coverImageUrl`, and both overwrite the AI values — `coverImageUrl`
with the catalog's image when there is one, and with "absent" when the
catalog result has no image. -/
theorem mergeData_precedence (g : GameData) (t : String) (c : Option String) :
    mergeData g RawgMeta.empty = g ∧
    mergeData g (RawgMeta.found t c) =
      { g with title := t, coverImageUrl := c } ∧
    (mergeData g (RawgMeta.found t c)).description = g.description ∧
    (mergeData g (RawgMeta.found t c)).prices = g.prices ∧
    fetchRawgMetadata (RawgOutcome.result t c) = RawgMeta.found t c :=
  ⟨rfl, rfl, rfl, rfl, rfl⟩

/-! ## Claim C1: result prices vs requested regions -/

/-- C1 counterexample: a deterministic price fetcher may resolve with a
payload mentioning a region that was not requested — `searchGamePrices`
performs no client-side region filtering, so the result's prices are not a
subset of the requested regions: with requested set `["US"]` and a payload
priced for `TR`, the call succeeds and the region-subset property is
false. -/
theorem searchGamePrices_region_subset_cex :
    Except.map (fun d => pricesWithinRegions d ["US"])
      (searchGamePrices RawgOutcome.noResults
        ⟨"G", "D", none, [⟨"Turkey", "TR", "TRY", 100, some 100⟩]⟩ ["US"])
      = Except.ok false :=
  rfl

/-- C1 amended: provided the fetched payload's prices already mention only
requested region codes, every price in the `GameData` returned by
`searchGamePrices` has its region code in the requested set (the cleaning
step only drops or normalises entries, never changes a region code). -/
theorem searchGamePrices_region_subset_amended (rawg : RawgOutcome)
    (g : GameData) (codes : List String) (d : GameData)
    (hin : ∀ p ∈ g.prices, p.regionCode ∈ codes)
    (hok : searchGamePrices rawg g codes = Except.ok d) :
    pricesWithinRegions d codes = true := by
  rw [pricesWithinRegions, List.all_eq_true]
  intro p hp
  rw [searchGamePrices_ok_prices rawg g codes d hok] at hp
  obtain ⟨q, ⟨hq, _⟩, hn⟩ := (mem_cleanPricesList g.prices p).mp hp
  rw [← hn, normalizeOriginal_regionCode]
  exact List.elem_eq_true_of_mem (hin q hq)

/-- Witness for the amended C1 at a concrete payload and region set. -/
theorem searchGamePrices_region_subset_amended_witness :
    pricesWithinRegions
      ⟨"G", "D", none, [⟨"Turkey", "TR", "TRY", 100, some 100⟩]⟩ ["TR"]
      = true :=
  searchGamePrices_region_subset_amended RawgOutcome.noResults
    ⟨"G", "D", none, [⟨"Turkey", "TR", "TRY", 100, some 100⟩]⟩ ["TR"]
    ⟨"G", "D", none, [⟨"Turkey", "TR", "TRY", 100, some 100⟩]⟩
    (by decide) rfl

/-! ## Claim C4: post-merge cleaning -/

/-- C4: after `searchGamePrices`' cleaning, every surviving entry has a
positive amount and a defined `originalAmount ≥ amount`; every payload
entry with `amount ≤ 0` has been dropped; every payload entry with
`amount > 0` and a defined `originalAmount ≥ amount` is kept unchanged; and
re-running the cleaning on the result is a no-op. -/
theorem searchGamePrices_clean_spec (rawg : RawgOutcome) (g : GameData)
    (codes : List String) (d : GameData)
    (hok : searchGamePrices rawg g codes = Except.ok d) :
    (∀ p ∈ d.prices, 0 < p.amount ∧
      ∃ o, p.originalAmount = some o ∧ p.amount ≤ o) ∧
    (∀ q ∈ g.prices, q.amount ≤ 0 → q ∉ d.prices) ∧
    (∀ q ∈ g.prices, 0 < q.amount → ∀ o, q.originalAmount = some o →
      q.amount ≤ o → q ∈ d.prices) ∧
    cleanPricesList d.prices = d.prices := by
  have hd := searchGamePrices_ok_prices rawg g codes d hok
  have hmem : ∀ p ∈ d.prices, 0 < p.amount ∧
      ∃ o, p.originalAmount = some o ∧ p.amount ≤ o := by
    intro p hp
    rw [hd] at hp
    obtain ⟨q, ⟨_, hq⟩, hn⟩ := (mem_cleanPricesList g.prices p).mp hp
    constructor
    · rw [← hn, normalizeOriginal_amount]; exact hq
    · obtain ⟨o, ho, hle⟩ := normalizeOriginal_originalAmount q
      refine ⟨o, by rw [← hn]; exact ho, ?_⟩
      rw [← hn, normalizeOriginal_amount]
      exact hle
  refine ⟨hmem, ?_, ?_, ?_⟩
  · intro q _ hq0 hqd
    exact absurd (hmem q hqd).1 (not_lt.mpr hq0)
  · intro q hq hq0 o ho hle
    rw [hd, mem_cleanPricesList]
    exact ⟨q, ⟨hq, hq0⟩, normalizeOriginal_id_of q hq0 o ho hle⟩
  · rw [hd]
    exact cleanPricesList_idem g.prices

/-- Witness for C4: the spec's cleaning example — amounts `0`,
`10 (original 5)`, `10 (absent original)` clean to two entries with
`originalAmount = 10`, on which the cleaning is a no-op. -/
theorem searchGamePrices_clean_spec_witness :
    cleanPricesList
        [⟨"United States", "US", "USD", 10, some 10⟩,
         ⟨"United States", "US", "USD", 10, some 10⟩]
      = [⟨"United States", "US", "USD", 10, some 10⟩,
         ⟨"United States", "US", "USD", 10, some 10⟩] :=
  (searchGamePrices_clean_spec RawgOutcome.noResults
    ⟨"G", "D", none,
      [⟨"United States", "US", "USD", 0, none⟩,
       ⟨"United States", "US", "USD", 10, some 5⟩,
       ⟨"United States", "US", "USD", 10, none⟩]⟩ ["US"]
    ⟨"G", "D", none,
      [⟨"United States", "US", "USD", 10, some 10⟩,
       ⟨"United States", "US", "USD", 10, some 10⟩]⟩ rfl).2.2.2

/-! ## The retry loop in closed form -/

theorem fetchGeminiPrices_eq {α : Type} (attempts : Nat → AttemptOutcome α) :
    fetchGeminiPrices attempts =
      match attempts 0 with
      | .success v => ⟨.ok v, 1, []⟩
      | .failure e0 =>
        if retryable e0 then
          match attempts 1 with
          | .success v => ⟨.ok v, 2, [2000]⟩
          | .failure e1 =>
            if retryable e1 then
              match attempts 2 with
              | .success v => ⟨.ok v, 3, [2000, 4000]⟩
              | .failure e2 => ⟨.error e2, 3, [2000, 4000]⟩
            else ⟨.error e1, 2, [2000]⟩
        else ⟨.error e0, 1, []⟩ := by
  have u0 : fetchGeminiPrices attempts =
      (match attempts 0 with
      | .success v => (⟨.ok v, 1, []⟩ : FetchTrace α)
      | .failure e =>
        if retryable e ∧ 0 < maxRetries - 1 then
          let t := fetchAux attempts 1 2
          ⟨t.result, t.attemptsMade + 1, 2000 * 2 ^ 0 :: t.delays⟩
        else ⟨.error e, 1, []⟩) := rfl
  have u1 : fetchAux attempts 1 2 =
      (match attempts 1 with
      | .success v => (⟨.ok v, 1, []⟩ : FetchTrace α)
      | .failure e =>
        if retryable e ∧ 1 < maxRetries - 1 then
          let t := fetchAux attempts 2 1
          ⟨t.result, t.attemptsMade + 1, 2000 * 2 ^ 1 :: t.delays⟩
        else ⟨.error e, 1, []⟩) := rfl
  have u2 : fetchAux attempts 2 1 =
      (match attempts 2 with
      | .success v => (⟨.ok v, 1, []⟩ : FetchTrace α)
      | .failure e => (⟨.error e, 1, []⟩ : FetchTrace α)) := by
    show (match attempts 2 with
      | .success v => (⟨.ok v, 1, []⟩ : FetchTrace α)
      | .failure e =>
        if retryable e ∧ 2 < maxRetries - 1 then
          let t := fetchAux attempts 3 0
          ⟨t.result, t.attemptsMade + 1, 2000 * 2 ^ 2 :: t.delays⟩
        else ⟨.error e, 1, []⟩) = _
    rcases attempts 2 with v | e
    · rfl
    · simp [maxRetries]
  rw [u0]
  rcases h0 : attempts 0 with v0 | e0
  · rfl
  · rcases hb0 : retryable e0
    · simp [hb0]
    · simp only [hb0, maxRetries, true_and]
      rw [if_pos (by decide)]
      rw [u1]
      rcases h1 : attempts 1 with v1 | e1
      · simp
      · rcases hb1 : retryable e1
        · simp [hb1]
        · simp only [hb1, true_and]
          rw [if_pos (by decide), u2]
          rcases h2 : attempts 2 with v2 | e2 <;> simp

/-! ## Claim C2: retry policy -/

/-- C2: the retry loop of `fetchGeminiPrices` makes between 1 and 3
attempts; every attempt that was followed by another one failed with an
error classified as 429 rate-limiting or 503 overload; a non-retryable
error on the first attempt terminates immediately with zero retries and no
delay; the awaited delays are `2000 * 2 ^ i` ms for the retries performed,
in order (2 s then 4 s); if the last executed attempt failed, its error is
the one raised to the caller; and a classifier-retryable failure on every
attempt yields exactly 3 attempts. -/
theorem fetchGeminiPrices_retry_policy {α : Type}
    (attempts : Nat → AttemptOutcome α) :
    (1 ≤ (fetchGeminiPrices attempts).attemptsMade ∧
      (fetchGeminiPrices attempts).attemptsMade ≤ 3) ∧
    (∀ i, i + 1 < (fetchGeminiPrices attempts).attemptsMade →
      ∃ e, attempts i = AttemptOutcome.failure e ∧ retryable e = true) ∧
    (∀ e, attempts 0 = AttemptOutcome.failure e → retryable e = false →
      fetchGeminiPrices attempts = ⟨Except.error e, 1, []⟩) ∧
    (fetchGeminiPrices attempts).delays =
      (List.range ((fetchGeminiPrices attempts).attemptsMade - 1)).map
        (fun i => 2000 * 2 ^ i) ∧
    (∀ e, attempts ((fetchGeminiPrices attempts).attemptsMade - 1) =
        AttemptOutcome.failure e →
      (fetchGeminiPrices attempts).result = Except.error e) ∧
    ((∀ i, i < 3 →
        ∃ e, attempts i = AttemptOutcome.failure e ∧ retryable e = true) →
      (fetchGeminiPrices attempts).attemptsMade = 3) := by
  rw [fetchGeminiPrices_eq attempts]
  rcases h0 : attempts 0 with v0 | e0
  · dsimp only
    refine ⟨by decide, ?_, ?_, by decide, ?_, ?_⟩
    · intro i hi
      have hi1 : i + 1 < 1 := hi
      omega
    · intro e he
      cases he
    · intro e he
      have he0 : attempts 0 = AttemptOutcome.failure e := he
      rw [h0] at he0
      cases he0
    · intro hall
      obtain ⟨e, he, _⟩ := hall 0 (by omega)
      rw [h0] at he
      cases he
  · dsimp only
    rcases hb0 : retryable e0
    · rw [if_neg Bool.false_ne_true]
      dsimp only
      refine ⟨by decide, ?_, ?_, by decide, ?_, ?_⟩
      · intro i hi
        have hi1 : i + 1 < 1 := hi
        omega
      · intro e he _
        cases he
        rfl
      · intro e he
        have he0 : attempts 0 = AttemptOutcome.failure e := he
        rw [h0] at he0
        cases he0
        rfl
      · intro hall
        obtain ⟨e, he, hr⟩ := hall 0 (by omega)
        rw [h0] at he
        cases he
        rw [hb0] at hr
        cases hr
    · rw [if_pos rfl]
      rcases h1 : attempts 1 with v1 | e1
      · dsimp only
        refine ⟨by decide, ?_, ?_, by decide, ?_, ?_⟩
        · intro i hi
          have hi1 : i + 1 < 2 := hi
          have hz : i = 0 := by omega
          subst hz
          exact ⟨e0, h0, hb0⟩
        · intro e he hr
          cases he
          rw [hb0] at hr
          cases hr
        · intro e he
          have he1 : attempts 1 = AttemptOutcome.failure e := he
          rw [h1] at he1
          cases he1
        · intro hall
          obtain ⟨e, he, _⟩ := hall 1 (by omega)
          rw [h1] at he
          cases he
      · dsimp only
        rcases hb1 : retryable e1
        · rw [if_neg Bool.false_ne_true]
          dsimp only
          refine ⟨by decide, ?_, ?_, by decide, ?_, ?_⟩
          · intro i hi
            have hi1 : i + 1 < 2 := hi
            have hz : i = 0 := by omega
            subst hz
            exact ⟨e0, h0, hb0⟩
          · intro e he hr
            cases he
            rw [hb0] at hr
            cases hr
          · intro e he
            have he1 : attempts 1 = AttemptOutcome.failure e := he
            rw [h1] at he1
            cases he1
            rfl
          · intro hall
            obtain ⟨e, he, hr⟩ := hall 1 (by omega)
            rw [h1] at he
            cases he
            rw [hb1] at hr
            cases hr
        · rw [if_pos rfl]
          rcases h2 : attempts 2 with v2 | e2
          · dsimp only
            refine ⟨by decide, ?_, ?_, by decide, ?_, fun _ => rfl⟩
            · intro i hi
              have hi1 : i + 1 < 3 := hi
              have hz : i = 0 ∨ i = 1 := by omega
              rcases hz with rfl | rfl
              · exact ⟨e0, h0, hb0⟩
              · exact ⟨e1, h1, hb1⟩
            · intro e he hr
              cases he
              rw [hb0] at hr
              cases hr
            · intro e he
              have he2 : attempts 2 = AttemptOutcome.failure e := he
              rw [h2] at he2
              cases he2
          · dsimp only
            refine ⟨by decide, ?_, ?_, by decide, ?_, fun _ => rfl⟩
            · intro i hi
              have hi1 : i + 1 < 3 := hi
              have hz : i = 0 ∨ i = 1 := by omega
              rcases hz with rfl | rfl
              · exact ⟨e0, h0, hb0⟩
              · exact ⟨e1, h1, hb1⟩
            · intro e he hr
              cases he
              rw [hb0] at hr
              cases hr
            · intro e he
              have he2 : attempts 2 = AttemptOutcome.failure e := he
              rw [h2] at he2
              cases he2
              rfl

/-- Witness for C2: a fetcher that always fails with a 429 error makes
exactly 3 attempts. -/
theorem fetchGeminiPrices_retry_policy_witness :
    (fetchGeminiPrices
        (fun _ => AttemptOutcome.failure ⟨"429", some 429⟩ :
          Nat → AttemptOutcome Unit)).attemptsMade = 3 :=
  (fetchGeminiPrices_retry_policy
    (fun _ => AttemptOutcome.failure ⟨"429", some 429⟩ :
      Nat → AttemptOutcome Unit)).2.2.2.2.2
    (fun _ _ => ⟨⟨"429", some 429⟩, rfl, by decide⟩)

/-! ## Claim C3: schema violations and the first attempt -/

/-- C3 counterexample: `fetchGeminiPrices` performs no client-side schema
validation — the declared schema lives only in the request.  A first
attempt whose body parses to the non-conforming JSON object
`{"foo": 1}` is returned as a *success* carrying the malformed value,
instead of raising. -/
theorem fetchGeminiPrices_schema_cex :
    conformsToSchema (JsonValue.jobj [("foo", JsonValue.jnum 1)]) = false ∧
    (fetchGeminiPrices (fun _ =>
        runAttempt (ProviderResponse.parsed
          (JsonValue.jobj [("foo", JsonValue.jnum 1)])))).result
      = Except.ok (JsonValue.jobj [("foo", JsonValue.jnum 1)]) ∧
    (fetchGeminiPrices (fun _ =>
        runAttempt (ProviderResponse.parsed
          (JsonValue.jobj [("foo", JsonValue.jnum 1)])))).attemptsMade = 1 :=
  ⟨rfl, rfl, rfl⟩

/-- C3 amended: the only terminal response errors of an attempt are an
empty/absent `response.text` and a body that fails `JSON.parse`; either on
the first attempt raises immediately with exactly one attempt and zero
retries.  A body that parses is returned as the success value without any
client-side schema check. -/
theorem fetchGeminiPrices_parse_terminal (responses : Nat → ProviderResponse) :
    ((responses 0 = ProviderResponse.noText ∨
        responses 0 = ProviderResponse.badJson) →
      (fetchGeminiPrices (fun i => runAttempt (responses i))).attemptsMade = 1 ∧
      (fetchGeminiPrices (fun i => runAttempt (responses i))).delays = [] ∧
      ∃ e, (fetchGeminiPrices (fun i => runAttempt (responses i))).result
        = Except.error e) ∧
    (∀ v, responses 0 = ProviderResponse.parsed v →
      (fetchGeminiPrices (fun i => runAttempt (responses i))).result
        = Except.ok v ∧
      (fetchGeminiPrices (fun i => runAttempt (responses i))).attemptsMade
        = 1) := by
  constructor
  · rintro (h | h)
    · have key : fetchGeminiPrices (fun i => runAttempt (responses i)) =
          ⟨Except.error ⟨"No response from AI", none⟩, 1, []⟩ := by
        rw [fetchGeminiPrices_eq]
        simp only [h, runAttempt]
        rw [if_neg (by decide)]
      rw [key]
      exact ⟨rfl, rfl, ⟨"No response from AI", none⟩, rfl⟩
    · have key : fetchGeminiPrices (fun i => runAttempt (responses i)) =
          ⟨Except.error ⟨"Unexpected token in JSON", none⟩, 1, []⟩ := by
        rw [fetchGeminiPrices_eq]
        simp only [h, runAttempt]
        rw [if_neg (by decide)]
      rw [key]
      exact ⟨rfl, rfl, ⟨"Unexpected token in JSON", none⟩, rfl⟩
  · intro v hv
    have key : fetchGeminiPrices (fun i => runAttempt (responses i)) =
        ⟨Except.ok v, 1, []⟩ := by
      rw [fetchGeminiPrices_eq]
      simp only [hv, runAttempt]
    rw [key]
    exact ⟨rfl, rfl⟩

/-- Witness for the amended C3: a first attempt with an empty response
body makes exactly one attempt with no delays. -/
theorem fetchGeminiPrices_parse_terminal_witness :
    FetchTrace.attemptsMade
        (fetchGeminiPrices
          (fun i => runAttempt ((fun _ => ProviderResponse.noText) i))) = 1 ∧
    FetchTrace.delays
        (fetchGeminiPrices
          (fun i => runAttempt ((fun _ => ProviderResponse.noText) i))) = [] :=
  ⟨((fetchGeminiPrices_parse_terminal (fun _ => ProviderResponse.noText)).1
      (Or.inl rfl)).1,
   ((fetchGeminiPrices_parse_terminal (fun _ => ProviderResponse.noText)).1
      (Or.inl rfl)).2.1⟩

/-! ## History store lemmas -/

theorem lookup_setEntry_self {β : Type} (m : List (String × β)) (k : String)
    (v : β) : List.lookup k (setEntry m k v) = some v := by
  induction m with
  | nil => simp [setEntry]
  | cons e rest ih =>
    obtain ⟨k0, v0⟩ := e
    by_cases h : k0 = k
    · subst h
      simp [setEntry]
    · have hb : (k == k0) = false := by
        simp only [beq_eq_false_iff_ne]
        exact Ne.symm h
      rw [setEntry, if_neg h, List.lookup_cons]
      simp only [hb]
      exact ih

theorem lookup_setEntry_ne {β : Type} (m : List (String × β)) (k k' : String)
    (v : β) (h : k' ≠ k) :
    List.lookup k' (setEntry m k v) = List.lookup k' m := by
  have hb : (k' == k) = false := by
    simp only [beq_eq_false_iff_ne]
    exact h
  induction m with
  | nil =>
    rw [setEntry, List.lookup_cons]
    simp only [hb]
  | cons e rest ih =>
    obtain ⟨k0, v0⟩ := e
    by_cases h0 : k0 = k
    · subst h0
      rw [setEntry, if_pos rfl, List.lookup_cons, List.lookup_cons]
      simp only [hb]
    · rw [setEntry, if_neg h0, List.lookup_cons, List.lookup_cons, ih]

theorem seriesOk_nil (bound : String) : seriesOk bound [] :=
  ⟨List.Pairwise.nil, by simp⟩

theorem seriesOk_mono (d d' : String) (hdd : d ≤ d') (s : RegionSeries)
    (h : seriesOk d s) : seriesOk d' s :=
  ⟨h.1, fun p hp => le_trans (h.2 p hp) hdd⟩

theorem gameOk_mono (d d' : String) (hdd : d ≤ d') (gh : GameHistory)
    (h : gameOk d gh) : gameOk d' gh :=
  fun rc => seriesOk_mono d d' hdd _ (h rc)

theorem updateSeries_seriesOk (s : RegionSeries) (d d' : String) (a : ℚ)
    (h : seriesOk d s) (hdd : d ≤ d') :
    seriesOk d' (updateSeries s d' a) := by
  induction s using List.reverseRecOn with
  | nil =>
    show seriesOk d' [⟨d', a⟩]
    refine ⟨List.pairwise_singleton _ _, ?_⟩
    intro p hp
    rw [List.mem_singleton] at hp
    subst hp
    exact le_refl _
  | append_singleton init q _ =>
    obtain ⟨hpw, hbd⟩ := h
    rw [List.pairwise_append] at hpw
    obtain ⟨hpwInit, _, hcross⟩ := hpw
    by_cases hd : q.date = d'
    · rw [updateSeries, List.getLast?_concat]
      dsimp only
      rw [if_pos hd, hd, List.dropLast_concat]
      constructor
      · rw [List.pairwise_append]
        refine ⟨hpwInit, List.pairwise_singleton _ _, ?_⟩
        intro x hx y hy
        rw [List.mem_singleton] at hy
        subst hy
        show x.date < (⟨d', a⟩ : HistoryPoint).date
        have := hcross x hx q (List.mem_singleton.mpr rfl)
        rw [← hd]
        exact this
      · intro p hp
        rcases List.mem_append.mp hp with hp | hp
        · exact le_trans (hbd p (List.mem_append.mpr (Or.inl hp))) hdd
        · rw [List.mem_singleton] at hp
          subst hp
          exact le_refl _
    · rw [updateSeries, List.getLast?_concat]
      dsimp only
      rw [if_neg hd]
      have hqlt : q.date < d' :=
        lt_of_le_of_ne
          (le_trans (hbd q (List.mem_append.mpr (Or.inr (List.mem_singleton.mpr rfl)))) hdd)
          hd
      constructor
      · rw [List.pairwise_append]
        refine ⟨⟨hpwInit, List.pairwise_singleton _ _, hcross⟩ |>
            (List.pairwise_append.mpr), List.pairwise_singleton _ _, ?_⟩
        intro x hx y hy
        rw [List.mem_singleton] at hy
        subst hy
        show x.date < d'
        rcases List.mem_append.mp hx with hx | hx
        · exact lt_trans (hcross x hx q (List.mem_singleton.mpr rfl)) hqlt
        · rw [List.mem_singleton] at hx
          subst hx
          exact hqlt
      · intro p hp
        rcases List.mem_append.mp hp with hp | hp
        · exact le_trans (hbd p hp) hdd
        · rw [List.mem_singleton] at hp
          subst hp
          exact le_refl _

theorem recordOne_gameOk (d : String) (gh : GameHistory) (p : PriceInfo)
    (h : gameOk d gh) : gameOk d (recordOne d gh p) := by
  intro rc
  show seriesOk d ((List.lookup rc (setEntry gh p.regionCode
    (updateSeries ((List.lookup p.regionCode gh).getD []) d p.amount))).getD [])
  by_cases hrc : rc = p.regionCode
  · rw [hrc, lookup_setEntry_self]
    exact updateSeries_seriesOk _ d d p.amount (h p.regionCode) (le_refl d)
  · rw [lookup_setEntry_ne _ _ _ _ hrc]
    exact h rc

theorem foldl_recordOne_gameOk (d : String) (ps : List PriceInfo)
    (gh : GameHistory) (h : gameOk d gh) :
    gameOk d (ps.foldl (recordOne d) gh) := by
  induction ps generalizing gh with
  | nil => exact h
  | cons p rest ih => exact ih _ (recordOne_gameOk d gh p h)

theorem savePriceHistory_dbOk (db : HistoryDb) (t : String)
    (ps : List PriceInfo) (d d' : String) (h : dbOk d db) (hdd : d ≤ d') :
    dbOk d' (savePriceHistory db t ps d') := by
  intro k
  show gameOk d' ((List.lookup k (setEntry db (normalizeKey t)
    (ps.foldl (recordOne d')
      ((List.lookup (normalizeKey t) db).getD [])))).getD [])
  by_cases hk : k = normalizeKey t
  · rw [hk, lookup_setEntry_self]
    exact foldl_recordOne_gameOk d' ps _
      (gameOk_mono d d' hdd _ (h (normalizeKey t)))
  · rw [lookup_setEntry_ne _ _ _ _ hk]
    exact gameOk_mono d d' hdd _ (h k)

theorem dbOk_nodup (d : String) (db : HistoryDb) (h : dbOk d db)
    (k rc : String) :
    ((lookupSeries db k rc).map HistoryPoint.date).Nodup := by
  have hs : seriesOk d (lookupSeries db k rc) := h k rc
  show List.Pairwise (fun x y => x ≠ y)
    ((lookupSeries db k rc).map HistoryPoint.date)
  rw [List.pairwise_map]
  exact hs.1.imp fun hlt => ne_of_lt hlt

theorem savePriceHistory_single (db : HistoryDb) (t : String) (p : PriceInfo)
    (d : String) :
    lookupSeries (savePriceHistory db t [p] d) (normalizeKey t) p.regionCode
      = updateSeries (lookupSeries db (normalizeKey t) p.regionCode) d
          p.amount := by
  show (List.lookup p.regionCode ((List.lookup (normalizeKey t)
      (setEntry db (normalizeKey t)
        ([p].foldl (recordOne d)
          ((List.lookup (normalizeKey t) db).getD [])))).getD [])).getD []
    = _
  rw [lookup_setEntry_self]
  simp only [Option.getD_some, List.foldl_cons, List.foldl_nil]
  show (List.lookup p.regionCode (setEntry _ p.regionCode _)).getD [] = _
  rw [lookup_setEntry_self]
  rfl

theorem updateSeries_last_same (s : RegionSeries) (d : String) (a : ℚ)
    (q : HistoryPoint) (hq : s.getLast? = some q) (hd : q.date = d) :
    updateSeries s d a = s.dropLast ++ [⟨d, a⟩] := by
  rw [updateSeries, hq]
  dsimp only
  rw [if_pos hd, hd]

theorem updateSeries_last_diff (s : RegionSeries) (d : String) (a : ℚ)
    (q : HistoryPoint) (hq : s.getLast? = some q) (hd : q.date ≠ d) :
    updateSeries s d a = s ++ [⟨d, a⟩] := by
  rw [updateSeries, hq]
  dsimp only
  rw [if_neg hd]

theorem foldl_recordOne_lookup_ne (d : String) (ps : List PriceInfo)
    (gh : GameHistory) (rc : String) (h : rc ∉ ps.map PriceInfo.regionCode) :
    List.lookup rc (ps.foldl (recordOne d) gh) = List.lookup rc gh := by
  induction ps generalizing gh with
  | nil => rfl
  | cons p rest ih =>
    simp only [List.map_cons, List.mem_cons] at h
    push_neg at h
    rw [List.foldl_cons, ih _ h.2]
    show List.lookup rc (setEntry gh p.regionCode _) = _
    rw [lookup_setEntry_ne _ _ _ _ h.1]

/-! ## Claim C5: same-day collapse invariant -/

/-- C5: under a monotone calendar clock, `savePriceHistory` preserves the
store invariant that every (normalized game key, region code) series has
strictly increasing dates bounded by the clock — so every store reachable
from the empty store by a sequence of record calls has at most one
`HistoryPoint` per calendar day in every series (its dates are pairwise
distinct); recording one price updates exactly that series via
`updateSeries`, which overwrites the last point's amount when its date is
today and appends a new point at the tail otherwise. -/
theorem savePriceHistory_day_collapse :
    (∀ d, dbOk d ([] : HistoryDb)) ∧
    (∀ d d' db t ps, dbOk d db → d ≤ d' →
      dbOk d' (savePriceHistory db t ps d')) ∧
    (∀ d db, dbOk d db → ∀ k rc,
      ((lookupSeries db k rc).map HistoryPoint.date).Nodup) ∧
    (∀ db t p d,
      lookupSeries (savePriceHistory db t [p] d) (normalizeKey t) p.regionCode
        = updateSeries (lookupSeries db (normalizeKey t) p.regionCode) d
            p.amount) ∧
    (∀ s d a q, s.getLast? = some q → q.date = d →
      updateSeries s d a = s.dropLast ++ [⟨d, a⟩]) ∧
    (∀ s d a q, s.getLast? = some q → q.date ≠ d →
      updateSeries s d a = s ++ [⟨d, a⟩]) ∧
    (∀ d a, updateSeries [] d a = [⟨d, a⟩]) :=
  ⟨fun d k => by
      show gameOk d ((List.lookup k ([] : HistoryDb)).getD [])
      intro rc
      exact seriesOk_nil d,
   fun d d' db t ps h hdd => savePriceHistory_dbOk db t ps d d' h hdd,
   fun d db h k rc => dbOk_nodup d db h k rc,
   fun db t p d => savePriceHistory_single db t p d,
   fun s d a q hq hd => updateSeries_last_same s d a q hq hd,
   fun s d a q hq hd => updateSeries_last_diff s d a q hq hd,
   fun _ _ => rfl⟩

/-- Witness for C5: recording one price into the empty store on a concrete
day yields a store satisfying the invariant. -/
theorem savePriceHistory_day_collapse_witness :
    dbOk "2024-06-01"
      (savePriceHistory [] "Elden Ring"
        [⟨"United States", "US", "USD", 39.99, none⟩] "2024-06-01") :=
  savePriceHistory_day_collapse.2.1 "2024-06-01" "2024-06-01" []
    "Elden Ring" [⟨"United States", "US", "USD", 39.99, none⟩]
    (savePriceHistory_day_collapse.1 "2024-06-01") (le_refl _)

/-! ## Claim C9: frame property of savePriceHistory -/

/-- C9: `savePriceHistory` modifies at most the series of the normalized
title and of the region codes in the batch: every other game key looks up
to an unchanged value, and every region series of the same game whose code
is not in the batch is unchanged. -/
theorem savePriceHistory_frame (db : HistoryDb) (t : String)
    (ps : List PriceInfo) (d : String) :
    (∀ k, k ≠ normalizeKey t →
      List.lookup k (savePriceHistory db t ps d) = List.lookup k db) ∧
    (∀ rc, rc ∉ ps.map PriceInfo.regionCode →
      lookupSeries (savePriceHistory db t ps d) (normalizeKey t) rc
        = lookupSeries db (normalizeKey t) rc) := by
  constructor
  · intro k hk
    show List.lookup k (setEntry db (normalizeKey t) _) = _
    rw [lookup_setEntry_ne _ _ _ _ hk]
  · intro rc hrc
    show (List.lookup rc ((List.lookup (normalizeKey t)
        (setEntry db (normalizeKey t)
          (ps.foldl (recordOne d)
            ((List.lookup (normalizeKey t) db).getD [])))).getD [])).getD []
      = _
    rw [lookup_setEntry_self]
    show (List.lookup rc
        (ps.foldl (recordOne d)
          ((List.lookup (normalizeKey t) db).getD []))).getD [] = _
    rw [foldl_recordOne_lookup_ne _ _ _ _ hrc]
    rfl

/-- Witness for C9: a concrete record call for a US price leaves the same
game's TR series unchanged. -/
theorem savePriceHistory_frame_witness :
    lookupSeries
        (savePriceHistory [] "Elden Ring"
          [⟨"United States", "US", "USD", 39.99, none⟩] "2024-06-01")
        (normalizeKey "Elden Ring") "TR"
      = lookupSeries [] (normalizeKey "Elden Ring") "TR" :=
  (savePriceHistory_frame [] "Elden Ring"
      [⟨"United States", "US", "USD", 39.99, none⟩] "2024-06-01").2
    "TR" (by decide)
